import Mathlib

/-!
# Verification of the rofi-vscode-mode core

Shallow embedding of the recent-item data model, the path/URL codec, the
JSON store codec and the interactive selection mode of the repository
(`src/vscode.rs`, `src/rofi.rs`), together with proofs of the specified
properties.

Conventions:
* Rust `anyhow::Result<T>` becomes `Except String T`.
* Rust panics (out-of-bounds indexing) become `Option.none` results.
* The ambient home directory (`dirs::home_dir()`) and the backing SQLite
  table (`ItemTable` of `state.vscdb`) are passed explicitly; an
  unopenable database is `Option.none`.
* External process spawning is recorded as a list of launched commands;
  whether the spawn succeeds is the `spawnOk` flag.
-/

namespace RVM

/-! ## URLs (model of the `url` crate as used by the source) -/

/-- A parsed URL, reduced to the parts the program inspects:
scheme, host (authority) and path. -/
structure Url where
  scheme : String
  host : String
  path : String
deriving DecidableEq

/-- Serialization of a URL, as `url::Url`'s `Display` produces it for the
URLs this program handles. -/
def Url.toString (u : Url) : String :=
  u.scheme ++ "://" ++ u.host ++ u.path

/-- Split a character list at the first occurrence of `"://"`. -/
def splitScheme : List Char → Option (List Char × List Char)
  | [] => none
  | ':' :: '/' :: '/' :: rest => some ([], rest)
  | c :: rest => (splitScheme rest).map (fun p => (c :: p.1, p.2))

/-- Parsing of a URL string (model of `url::Url::parse` on the shapes the
program handles): the scheme is everything before the first `"://"`, the
host runs until the first `/`, the path is the rest. -/
def Url.parse (s : String) : Option Url :=
  match splitScheme s.toList with
  | none => none
  | some (schemeChars, rest) =>
    if schemeChars = [] then none
    else
      let host := rest.takeWhile (fun c => c != '/')
      let path := rest.dropWhile (fun c => c != '/')
      some { scheme := String.mk schemeChars, host := String.mk host, path := String.mk path }

/-- A URL is well formed when serializing and re-parsing it is the
identity (true of every URL the `url` crate itself produces). -/
def Url.WF (u : Url) : Prop :=
  Url.parse u.toString = some u

instance (u : Url) : Decidable u.WF := by
  unfold Url.WF; infer_instance

/-! ## Filesystem paths (model of `std::path`) -/

/-- A filesystem path: whether it is absolute, and its components. -/
structure Path where
  absolute : Bool
  comps : List String
deriving DecidableEq

/-- Accumulator-based splitting on `/`; the accumulator holds the current
chunk in reverse. -/
def splitSlashAux : List Char → List Char → List String
  | [], acc => if acc = [] then [] else [String.mk acc.reverse]
  | c :: cs, acc =>
    if c = '/' then
      if acc = [] then splitSlashAux cs []
      else String.mk acc.reverse :: splitSlashAux cs []
    else splitSlashAux cs (c :: acc)

/-- Split a character list on `/`, dropping empty chunks, the way
`std::path::Path::components` does. -/
def splitSlash (cs : List Char) : List String :=
  splitSlashAux cs []

/-- Join components with `/` separators. -/
def joinSlash : List String → List Char
  | [] => []
  | [c] => c.toList
  | c :: rest => c.toList ++ '/' :: joinSlash rest

/-- Does the character list start with `/`? -/
def startsSlash : List Char → Bool
  | [] => false
  | c :: _ => c == '/'

/-- Model of `PathBuf::from` / `Path::new`: parse a string into a path. -/
def Path.parse (s : String) : Path :=
  { absolute := startsSlash s.toList, comps := splitSlash s.toList }

/-- Model of `Path::display` / `to_string_lossy` for the paths this program builds. -/
def Path.toString (p : Path) : String :=
  String.mk ((if p.absolute then ['/'] else []) ++ joinSlash p.comps)

/-- A path is well formed when each component is nonempty and contains no
separator (true of everything `Path::components` yields). -/
def Path.WF (p : Path) : Prop :=
  ∀ c ∈ p.comps, c ≠ "" ∧ '/' ∉ c.toList

instance (p : Path) : Decidable p.WF := by
  unfold Path.WF; infer_instance

/-- Component-wise matching of a prefix, as `Path::strip_prefix` iterates
components. -/
def stripComps : List String → List String → Option (List String)
  | [], rest => some rest
  | _ :: _, [] => none
  | p :: ps, c :: cs => if p = c then stripComps ps cs else none

/-- Model of the path prefix removal from `std::path`; the root marker
(absoluteness) must match as well. The remainder is relative. -/
def Path.stripPref (p pre : Path) : Option Path :=
  if p.absolute = pre.absolute then
    (stripComps pre.comps p.comps).map (fun rest => { absolute := false, comps := rest })
  else none

/-- Model of `Path::join` / `PathBuf::push` of a second path. -/
def Path.join (p q : Path) : Path :=
  if q.absolute then q else { absolute := p.absolute, comps := p.comps ++ q.comps }

/-! ## tildify / untildify (from `src/vscode.rs`) -/

/-- Function `tildify` from the source: replace the home-directory prefix of `path` with `~`.
If the prefix is not present or the home directory cannot be determined,
the path is returned as is. -/
def tildify (home : Option Path) (path : Path) : String :=
  match home.bind (fun h => path.stripPref h) with
  | some suff => Path.toString { absolute := false, comps := "~" :: suff.comps }
  | none => path.toString

/-- Function `untildify` from the source: expand the `~` prefix in `path` to the home directory.
If the prefix is not present or the home directory cannot be determined,
the path is returned as is. -/
def untildify (home : Option Path) (s : String) : Path :=
  let path := Path.parse s
  match home with
  | none => path
  | some h =>
    match path.stripPref { absolute := false, comps := ["~"] } with
    | some suffix => h.join suffix
    | none => path

/-! ## JSON values (model of `serde_json::Value`) -/

/-- JSON values. Objects keep field order; lookups take the first match. -/
inductive Json where
  | null
  | bool (b : Bool)
  | num (n : Int)
  | str (s : String)
  | arr (items : List Json)
  | obj (fields : List (String × Json))

/-- Field lookup on a JSON object (`Value::get` / serde field access). -/
def Json.lookup (j : Json) (key : String) : Option Json :=
  match j with
  | .obj fields => (fields.find? (fun kv => kv.fst == key)).map (fun kv => kv.snd)
  | _ => none

/-! ## The recent-item data model (from `src/vscode.rs`, `mod workspaces`) -/

/-- Identifies a multi-root workspace: storage id plus location of the
`.code-workspace` file. -/
structure WorkspaceIdentifier where
  id : String
  configPath : Url
deriving DecidableEq

/-- A recently opened item: a multi-root workspace, a folder, or a file.
Mirrors `enum Recent` with its optional `label` and `remote_authority`
fields. -/
inductive Recent where
  | workspace (workspace : WorkspaceIdentifier) (label : Option String) (remoteAuthority : Option String)
  | folder (folderUri : Url) (label : Option String) (remoteAuthority : Option String)
  | file (fileUri : Url) (label : Option String) (remoteAuthority : Option String)
deriving DecidableEq

/-- Accessor `Recent::url`: the URL locating the item. -/
def Recent.url : Recent → Url
  | .workspace w _ _ => w.configPath
  | .folder u _ _ => u
  | .file u _ _ => u

/-- Accessor `Recent::is_local`: the locator has the `file` scheme. -/
def Recent.isLocal (r : Recent) : Bool :=
  r.url.scheme == "file"

/-- Accessor `Recent::remote`: the `remote_authority` field, variant-agnostic. -/
def Recent.remote : Recent → Option String
  | .workspace _ _ ra => ra
  | .folder _ _ ra => ra
  | .file _ _ ra => ra

/-- The stored `label` field, variant-agnostic. -/
def Recent.storedLabel : Recent → Option String
  | .workspace _ l _ => l
  | .folder _ l _ => l
  | .file _ l _ => l

/-- Model of `url::Url::to_file_path`: succeeds when the host is empty or
`localhost`, yielding the URL path as a filesystem path. -/
def Url.toFilePath (u : Url) : Option Path :=
  if u.host = "" ∨ u.host = "localhost" then some (Path.parse u.path) else none

/-- Accessor `Recent::file_path`: the local path of the item; fails for non-`file`
schemes, and for `file` URLs whose path cannot be converted. -/
def Recent.filePath (r : Recent) : Except String Path :=
  let url := r.url
  if url.scheme = "file" then
    match url.toFilePath with
    | some p => Except.ok p
    | none => Except.error ("Could not get path from file url " ++ url.toString)
  else Except.error ("Not a file url " ++ url.toString)

/-- Accessor `Recent::label`: the stored label as-is if present, otherwise the
tildified local path; the `file_path` error is propagated. -/
def Recent.label (home : Option Path) (r : Recent) : Except String String :=
  match r with
  | .workspace _ lab _ =>
    match lab with
    | some l => Except.ok l
    | none => (r.filePath).map (fun p => tildify home p)
  | .folder _ lab _ =>
    match lab with
    | some l => Except.ok l
    | none => (r.filePath).map (fun p => tildify home p)
  | .file _ lab _ =>
    match lab with
    | some l => Except.ok l
    | none => (r.filePath).map (fun p => tildify home p)

/-- Well-formedness of a recent item: its locator URL survives the
serialize/parse round trip (true of every decoded item). -/
def Recent.WFu (r : Recent) : Prop :=
  Url.parse r.url.toString = some r.url

instance (r : Recent) : Decidable r.WFu := by
  unfold Recent.WFu; infer_instance

/-! ## JSON codec for recent items (model of the serde derives) -/

/-- Serialize one optional field, omitted when absent
(`skip_serializing_if = "Option::is_none"`). -/
def optField (name : String) (v : Option String) : List (String × Json) :=
  match v with
  | none => []
  | some s => [(name, Json.str s)]

/-- Serialization of `Recent` (untagged, camelCase field names). -/
def encodeRecent : Recent → Json
  | .workspace w lab ra =>
    Json.obj ([("workspace", Json.obj [("id", Json.str w.id), ("configPath", Json.str w.configPath.toString)])]
      ++ optField "label" lab ++ optField "remoteAuthority" ra)
  | .folder u lab ra =>
    Json.obj ([("folderUri", Json.str u.toString)] ++ optField "label" lab ++ optField "remoteAuthority" ra)
  | .file u lab ra =>
    Json.obj ([("fileUri", Json.str u.toString)] ++ optField "label" lab ++ optField "remoteAuthority" ra)

/-- Deserialize an `Option<String>` field: missing and `null` are `None`,
a string is `Some`, anything else fails. -/
def decodeOptString (v : Option Json) : Option (Option String) :=
  match v with
  | none => some none
  | some Json.null => some none
  | some (Json.str s) => some (some s)
  | some _ => none

/-- Deserialize a required `Url` field (a string that parses as a URL). -/
def decodeUrl (v : Option Json) : Option Url :=
  match v with
  | some (Json.str s) => Url.parse s
  | _ => none

/-- Deserialize a `WorkspaceIdentifier` (required `id` and `configPath`). -/
def decodeWorkspaceId (j : Json) : Option WorkspaceIdentifier :=
  match j.lookup "id", decodeUrl (j.lookup "configPath") with
  | some (Json.str i), some u => some { id := i, configPath := u }
  | _, _ => none

/-- Try to deserialize as the `Workspace` variant. -/
def decodeAsWorkspace (j : Json) : Option Recent :=
  match j.lookup "workspace" with
  | some wj =>
    match decodeWorkspaceId wj, decodeOptString (j.lookup "label"), decodeOptString (j.lookup "remoteAuthority") with
    | some w, some lab, some ra => some (Recent.workspace w lab ra)
    | _, _, _ => none
  | none => none

/-- Try to deserialize as the `Folder` variant. -/
def decodeAsFolder (j : Json) : Option Recent :=
  match decodeUrl (j.lookup "folderUri"), decodeOptString (j.lookup "label"), decodeOptString (j.lookup "remoteAuthority") with
  | some u, some lab, some ra => some (Recent.folder u lab ra)
  | _, _, _ => none

/-- Try to deserialize as the `File` variant. -/
def decodeAsFile (j : Json) : Option Recent :=
  match decodeUrl (j.lookup "fileUri"), decodeOptString (j.lookup "label"), decodeOptString (j.lookup "remoteAuthority") with
  | some u, some lab, some ra => some (Recent.file u lab ra)
  | _, _, _ => none

/-- Untagged deserialization of `Recent`: the variants are tried in
declaration order; an element matching none of the shapes yields `none`. -/
def decodeRecent (j : Json) : Option Recent :=
  (decodeAsWorkspace j) <|> (decodeAsFolder j) <|> (decodeAsFile j)

/-! ## The backing store (model of `state.vscdb`'s `ItemTable`) -/

/-- The key-value table of the state database. -/
abbrev Table := List (String × Json)

/-- The fixed history key, `history.recentlyOpenedPathsList`. -/
def vscdbHistoryKey : String := "history.recentlyOpenedPathsList"

/-- Model of the query SELECT value FROM ItemTable WHERE key: the first matching
row's value. -/
def tableLookup : Table → String → Option Json
  | [], _ => none
  | kv :: rest, k => if kv.fst == k then some kv.snd else tableLookup rest k

/-- Model of the statement UPDATE ItemTable SET value WHERE key: rows whose key
matches get the new value; with no matching row nothing changes (and the
statement still succeeds). -/
def updateRow (t : Table) (k : String) (v : Json) : Table :=
  t.map (fun kv => if kv.fst == k then (kv.fst, v) else kv)

/-- The serialized history object with its entries array. -/
def encodeEntries (entries : List Recent) : Json :=
  Json.obj [("entries", Json.arr (entries.map encodeRecent))]

/-- Function `get_history_entries` from the source: read the history row, require an `entries`
array, decode each element independently (dropping failures), optionally
keep only local items. `db = none` models an unopenable database. -/
def getHistoryEntries (db : Option Table) (localOnly : Bool) : Except String (List Recent) :=
  match db with
  | none => Except.error "Could not open database"
  | some t =>
    match tableLookup t vscdbHistoryKey with
    | none => Except.error "Could not retrieve history key from state DB as JSON"
    | some v =>
      match v.lookup "entries" with
      | some (Json.arr es) =>
        let items := es.filterMap decodeRecent
        let items :=
          match localOnly with
          | false => items.filter (fun _ => true)
          | true => items.filter (fun e => e.isLocal)
        Except.ok items
      | _ => Except.error "History entries attribute is not an array"

/-- Function `store_recently_opened` from the source: open the database read-write and update the
history row in place with the serialized entries. -/
def storeRecentlyOpened (db : Option Table) (entries : List Recent) : Except String Table :=
  match db with
  | none => Except.error "Could not open database for writing"
  | some t => Except.ok (updateRow t vscdbHistoryKey (encodeEntries entries))

/-! ## The interactive mode (from `src/rofi.rs`, `VSCodeRecentMode`) -/

/-- The rofi actions the mode returns. -/
inductive Action where
  | exit
  | reload
  | reset
deriving DecidableEq

/-- The rofi events the mode reacts to. -/
inductive Event where
  | cancel
  | ok (selected : Nat)
  | customInput
  | complete (selected : Option Nat)
  | deleteEntry (selected : Nat)
  | customCommand

/-- A request to spawn the editor executable with arguments. -/
inductive LaunchCmd where
  | run (cmd : String) (args : List String)
deriving DecidableEq

/-- The mode state: loaded entries, the flavor's command, the backing
database and the resolved home directory. -/
structure ModeState where
  entries : List Recent
  flavorCmd : String
  db : Option Table
  home : Option Path

/-- Result of reacting to one event: updated state pieces, the (possibly
rewritten) input buffer, the returned action, and the commands spawned. -/
structure ReactResult where
  entries : List Recent
  db : Option Table
  input : String
  action : Action
  launched : List LaunchCmd

/-- Argument list built by `Flavor::open_recent`: the locator URL, flagged
`--file-uri` for workspaces and files and `--folder-uri` for folders. -/
def openRecentArgs (r : Recent) : List String :=
  let url := (Recent.url r).toString
  match r with
  | .workspace _ _ _ => ["--file-uri", url]
  | .folder _ _ _ => ["--folder-uri", url]
  | .file _ _ _ => ["--file-uri", url]

/-- Model of `VSCodeRecentMode::react`. Out-of-bounds indexing (a Rust panic) is
`none`. `spawnOk` tells whether a spawned command succeeds; an `Err`
outcome is mapped to `Action::Exit` by the error handler. -/
def react (s : ModeState) (ev : Event) (input : String) (spawnOk : Bool) : Option ReactResult :=
  match ev with
  | Event.cancel =>
    some { entries := s.entries, db := s.db, input := input, action := Action.exit, launched := [] }
  | Event.ok sel =>
    match s.entries[sel]? with
    | none => none
    | some item =>
      let res : Except String Action :=
        if spawnOk then Except.ok Action.exit else Except.error "Could not open entry"
      let act := match res with | Except.ok a => a | Except.error _ => Action.exit
      some { entries := s.entries, db := s.db, input := input, action := act,
             launched := [LaunchCmd.run s.flavorCmd (openRecentArgs item)] }
  | Event.customInput =>
    let p := untildify s.home input
    let res : Except String Action :=
      if spawnOk then Except.ok Action.exit else Except.error "Could not execute VSCode"
    let act := match res with | Except.ok a => a | Except.error _ => Action.exit
    some { entries := s.entries, db := s.db, input := input, action := act,
           launched := [LaunchCmd.run s.flavorCmd [p.toString]] }
  | Event.complete osel =>
    match osel with
    | some line =>
      match s.entries[line]? with
      | none => none
      | some item =>
        match Recent.label s.home item with
        | Except.ok lab =>
          some { entries := s.entries, db := s.db, input := lab, action := Action.reset, launched := [] }
        | Except.error _ =>
          some { entries := s.entries, db := s.db, input := input, action := Action.reset, launched := [] }
    | none =>
      some { entries := s.entries, db := s.db, input := input, action := Action.reset, launched := [] }
  | Event.deleteEntry sel =>
    if sel < s.entries.length then
      let rest := s.entries.eraseIdx sel
      match storeRecentlyOpened s.db rest with
      | Except.ok t =>
        some { entries := rest, db := some t, input := input, action := Action.reload, launched := [] }
      | Except.error _ =>
        some { entries := rest, db := s.db, input := input, action := Action.exit, launched := [] }
    else none
  | Event.customCommand =>
    some { entries := s.entries, db := s.db, input := input, action := Action.exit, launched := [] }

/-- Model of `VSCodeRecentMode::entry_content`: the entry's label, or an empty
string when the label cannot be computed; `none` is the out-of-bounds
panic. -/
def entryContent (s : ModeState) (line : Nat) : Option String :=
  (s.entries[line]?).map (fun item =>
    match Recent.label s.home item with
    | Except.ok lab => lab
    | Except.error _ => "")

/-- Model of `VSCodeRecentMode::matches`: match the label against the matcher;
a failed label never matches; `none` is the out-of-bounds panic. -/
def matchesEntry (s : ModeState) (line : Nat) (matcher : String → Bool) : Option Bool :=
  (s.entries[line]?).map (fun item =>
    match Recent.label s.home item with
    | Except.ok lab => matcher lab
    | Except.error _ => false)

/-- Is an `Except` an `ok`? -/
def isOkE {α : Type} : Except String α → Bool
  | Except.ok _ => true
  | Except.error _ => false

/-! ## Spec-modelled predicates and concrete instances -/

/-- Modelled from the spec: `on_select(i)` resolves `locator(i)`; if the
item is local, a local open is requested with the resolved filesystem
path; if remote, a remote-aware open with `(remote_authority, locator)`;
the session terminates. -/
def onSelectSpec (s : ModeState) (i : Nat) : Prop :=
  ∀ r item, react s (Event.ok i) "" true = some r → s.entries[i]? = some item →
    r.action = Action.exit ∧
    (if item.isLocal then
      ∃ p, item.filePath = Except.ok p ∧ r.launched = [LaunchCmd.run s.flavorCmd [p.toString]]
    else
      r.launched = [LaunchCmd.run s.flavorCmd ["--remote", item.remote.getD "", item.url.toString]])

/-- Modelled from the spec: `on_autocomplete` with no index (or with a
failing label) clears the input buffer. -/
def autocompleteClearSpec (s : ModeState) (input : String) : Prop :=
  ∀ r, react s (Event.complete none) input true = some r → r.input = ""

/-- A local folder URL used in the examples. -/
def urlProj : Url := { scheme := "file", host := "", path := "/home/u/proj" }

/-- A remote URL used in the examples. -/
def urlRemote : Url := { scheme := "vscode-remote", host := "ssh-remote+box", path := "/srv/app" }

/-- A mode state with one local file entry. -/
def c1State : ModeState :=
  { entries := [Recent.file urlProj none none], flavorCmd := "code", db := none, home := none }

/-- A well-formed folder entry in JSON form. -/
def c4FolderJson : Json := Json.obj [("folderUri", Json.str "file:///home/u/proj")]

/-- An object matching none of the three variant shapes. -/
def c4Junk : Json := Json.obj [("foo", Json.num 3)]

/-- A history table whose entries array holds one good and one junk
element. -/
def c4Table : Table :=
  [(vscdbHistoryKey, Json.obj [("entries", Json.arr [c4FolderJson, c4Junk])])]

/-- A URL with the `file` scheme but a non-local host. -/
def c6Url : Url := { scheme := "file", host := "example.com", path := "/x" }

/-- Concrete recent items for the delete / round-trip scenarios. -/
def recA : Recent := Recent.folder { scheme := "file", host := "", path := "/home/u/a" } none none

def recB : Recent := Recent.file { scheme := "file", host := "", path := "/home/u/b" } (some "Bee") none

def recC : Recent :=
  Recent.workspace { id := "w1", configPath := { scheme := "file", host := "", path := "/home/u/c.code-workspace" } } none none

/-- A table holding the history key (with a stale value). -/
def tblOne : Table := [(vscdbHistoryKey, Json.null)]

/-- A table without the history key. -/
def tblOther : Table := [("other", Json.null)]

/-! ## Helper lemmas -/

theorem tableLookup_updateRow_of_mem {t : Table} {k : String} {v : Json} (x : Json)
    (h : tableLookup t k = some v) : tableLookup (updateRow t k x) k = some x := by
  induction t with
  | nil => simp [tableLookup] at h
  | cons kv rest ih =>
    simp only [tableLookup] at h
    rw [updateRow, List.map_cons]
    by_cases hk : (kv.fst == k) = true
    · rw [if_pos hk]
      show tableLookup ((kv.fst, x) :: List.map _ rest) k = some x
      simp only [tableLookup]
      rw [if_pos hk]
    · rw [if_neg hk] at h
      rw [if_neg hk]
      simp only [tableLookup]
      rw [if_neg hk]
      have := ih h
      rw [updateRow] at this
      exact this

theorem updateRow_of_nokey {t : Table} {k : String} (x : Json)
    (h : tableLookup t k = none) : updateRow t k x = t := by
  induction t with
  | nil => rfl
  | cons kv rest ih =>
    simp only [tableLookup] at h
    by_cases hk : (kv.fst == k) = true
    · rw [if_pos hk] at h
      exact absurd h (by simp)
    · rw [if_neg hk] at h
      rw [updateRow, List.map_cons, if_neg hk]
      have := ih h
      rw [updateRow] at this
      rw [this]

theorem filter_true_id (l : List Recent) : l.filter (fun _ => true) = l := by
  induction l with
  | nil => rfl
  | cons a rest ih => simp [List.filter, ih]

theorem decode_encode (r : Recent) (hr : r.WFu) : decodeRecent (encodeRecent r) = some r := by
  unfold Recent.WFu at hr
  cases r with
  | workspace w lab ra =>
    simp only [Recent.url] at hr
    cases lab <;> cases ra <;>
      simp [encodeRecent, decodeRecent, decodeAsWorkspace, decodeWorkspaceId, decodeOptString,
        decodeUrl, optField, Json.lookup, List.find?, hr]
  | folder u lab ra =>
    simp only [Recent.url] at hr
    cases lab <;> cases ra <;>
      simp [encodeRecent, decodeRecent, decodeAsWorkspace, decodeAsFolder, decodeWorkspaceId,
        decodeOptString, decodeUrl, optField, Json.lookup, List.find?, hr]
  | file u lab ra =>
    simp only [Recent.url] at hr
    cases lab <;> cases ra <;>
      simp [encodeRecent, decodeRecent, decodeAsWorkspace, decodeAsFolder, decodeAsFile,
        decodeWorkspaceId, decodeOptString, decodeUrl, optField, Json.lookup, List.find?, hr]

theorem filterMap_decode_encode (l : List Recent) (h : ∀ r ∈ l, r.WFu) :
    (l.map encodeRecent).filterMap decodeRecent = l := by
  induction l with
  | nil => rfl
  | cons a rest ih =>
    simp only [List.map_cons, List.filterMap_cons, decode_encode a (h a (by simp))]
    rw [ih (fun r hr => h r (by simp [hr]))]

/-! ## Claim C1: the select event -/

/-- C1, counterexample: for a local file entry the code does not request
a local open with the resolved filesystem path — it passes the locator
URL behind a `--file-uri` flag — so the spec's description of the select
event fails at this input. -/
theorem c1_counterexample : ¬ onSelectSpec c1State 0 := by
  intro h
  obtain ⟨-, hloc⟩ := h _ _ rfl rfl
  rw [if_pos (by decide)] at hloc
  obtain ⟨p, -, hl⟩ := hloc
  simp [react, c1State, openRecentArgs] at hl

/-- C1 (amended): the select event launches the editor with the item's
locator URL string behind a flag chosen by the variant (`--file-uri` for
workspaces and files, `--folder-uri` for folders), regardless of whether
the item is local or remote and without consulting `remote_authority`;
the entry list is unchanged and the session always terminates
(`Action::Exit` on success and on failure). -/
theorem c1_select_opens_uri (s : ModeState) (i : Nat) (item : Recent) (input : String)
    (spawnOk : Bool) (h : s.entries[i]? = some item) :
    react s (Event.ok i) input spawnOk =
      some { entries := s.entries, db := s.db, input := input, action := Action.exit,
             launched := [LaunchCmd.run s.flavorCmd (openRecentArgs item)] } := by
  cases spawnOk <;> simp [react, h]

/-- C1, witness: the amended theorem at a concrete local entry. -/
theorem c1_select_opens_uri_witness :
    c1State.entries[0]? = some (Recent.file urlProj none none) ∧
    react c1State (Event.ok 0) "" true =
      some { entries := c1State.entries, db := none, input := "", action := Action.exit,
             launched := [LaunchCmd.run "code" (openRecentArgs (Recent.file urlProj none none))] } :=
  ⟨rfl, c1_select_opens_uri c1State 0 (Recent.file urlProj none none) "" true rfl⟩

/-! ## Claim C4: per-element decoding with silent drops -/

/-- C4: when the history row holds an `entries` array, each element is
decoded independently and the failures are dropped (`filterMap`), which
preserves the order of the survivors; in particular an array with one
well-formed Folder element and one junk element decodes to the one-element
list. -/
theorem c4_partial_drop (t : Table) (es : List Json)
    (h : tableLookup t vscdbHistoryKey = some (Json.obj [("entries", Json.arr es)])) :
    getHistoryEntries (some t) false = Except.ok (es.filterMap decodeRecent) ∧
    getHistoryEntries (some c4Table) false = Except.ok [Recent.folder urlProj none none] := by
  constructor
  · simp [getHistoryEntries, h, Json.lookup, List.find?, filter_true_id]
  · rfl

/-- C4, witness: the theorem at the concrete one-good-one-junk table. -/
theorem c4_partial_drop_witness :
    tableLookup c4Table vscdbHistoryKey = some (Json.obj [("entries", Json.arr [c4FolderJson, c4Junk])]) ∧
    getHistoryEntries (some c4Table) false = Except.ok ([c4FolderJson, c4Junk].filterMap decodeRecent) :=
  ⟨rfl, (c4_partial_drop c4Table [c4FolderJson, c4Junk] rfl).1⟩

/-! ## Claim C6: file_path and scheme rejection -/

/-- C6, counterexample: `file_path` does not succeed *exactly* when the
scheme is `file` — a `file` URL with a non-local host fails as well. -/
theorem c6_counterexample :
    (Recent.folder c6Url none none).url.scheme = "file" ∧
    isOkE ((Recent.folder c6Url none none).filePath) = false :=
  ⟨rfl, rfl⟩

/-- C6 (amended): `file_path` fails for every non-`file` scheme; for
`file` URLs with an empty or `localhost` host it returns the URL path as
a filesystem path; concretely `file:///home/u/proj` yields
`/home/u/proj`, and an `http` URL fails. -/
theorem c6_file_path (r : Recent) (hs : r.url.scheme = "file")
    (hh : r.url.host = "" ∨ r.url.host = "localhost") :
    r.filePath = Except.ok (Path.parse r.url.path) ∧
    (∀ q : Recent, q.url.scheme ≠ "file" →
      q.filePath = Except.error ("Not a file url " ++ q.url.toString)) ∧
    (Recent.file urlProj none none).filePath = Except.ok (Path.parse "/home/u/proj") ∧
    isOkE ((Recent.file { scheme := "http", host := "example.com", path := "/a" } none none).filePath) = false := by
  refine ⟨?_, ?_, rfl, rfl⟩
  · rcases hh with hh | hh <;> simp [Recent.filePath, hs, Url.toFilePath, hh]
  · intro q hq
    simp [Recent.filePath, hq]

/-- C6, witness: the amended theorem at the concrete local folder URL. -/
theorem c6_file_path_witness :
    (Recent.folder urlProj none none).url.scheme = "file" ∧
    ((Recent.folder urlProj none none).url.host = "" ∨ (Recent.folder urlProj none none).url.host = "localhost") ∧
    (Recent.folder urlProj none none).filePath = Except.ok (Path.parse (Recent.folder urlProj none none).url.path) :=
  ⟨rfl, Or.inl rfl, (c6_file_path (Recent.folder urlProj none none) rfl (Or.inl rfl)).1⟩

/-! ## Claim C7: label fallback -/

/-- C7: `label` returns the stored label verbatim when present; when
absent it is `tildify` of `file_path`, and a `file_path` failure is
propagated; concretely a label-less local folder under home `/home/u`
yields `~/proj`, and a label-less remote folder yields an error. -/
theorem c7_label (home : Option Path) (r : Recent) :
    (∀ lab, r.storedLabel = some lab → Recent.label home r = Except.ok lab) ∧
    (r.storedLabel = none → Recent.label home r = (r.filePath).map (fun p => tildify home p)) ∧
    Recent.label (some (Path.parse "/home/u")) (Recent.folder urlProj none none) = Except.ok "~/proj" ∧
    isOkE (Recent.label none (Recent.folder urlRemote none (some "ssh-remote+box"))) = false := by
  refine ⟨?_, ?_, rfl, rfl⟩
  · intro lab hl
    cases r <;> simp [Recent.storedLabel] at hl <;> simp [Recent.label, hl]
  · intro hl
    cases r <;> simp [Recent.storedLabel] at hl <;> simp [Recent.label, hl]

/-- C7, witness: the theorem's verbatim branch at a concrete entry. -/
theorem c7_label_witness :
    (Recent.folder urlProj (some "L") none).storedLabel = some "L" ∧
    Recent.label (some (Path.parse "/home/u")) (Recent.folder urlProj (some "L") none) = Except.ok "L" :=
  ⟨rfl, (c7_label (some (Path.parse "/home/u")) (Recent.folder urlProj (some "L") none)).1 "L" rfl⟩

/-! ## Claim C5: the autocomplete event -/

/-- C5, counterexample: with no index given, the input buffer is left
unchanged, not cleared. -/
theorem c5_counterexample : ¬ autocompleteClearSpec c1State "abc" := by
  intro h
  have := h { entries := c1State.entries, db := c1State.db, input := "abc",
              action := Action.reset, launched := [] } rfl
  exact absurd this (by decide)

/-- C5 (amended): with an index whose label resolves, the input buffer is
replaced by that label and the session resets without exiting; with no
index, or when label resolution fails, the buffer is left unchanged (the
session still resets). -/
theorem c5_autocomplete (s : ModeState) (line : Nat) (item : Recent) (inp lab : String) (b : Bool) :
    (s.entries[line]? = some item → Recent.label s.home item = Except.ok lab →
      react s (Event.complete (some line)) inp b =
        some { entries := s.entries, db := s.db, input := lab, action := Action.reset, launched := [] }) ∧
    (s.entries[line]? = some item → isOkE (Recent.label s.home item) = false →
      react s (Event.complete (some line)) inp b =
        some { entries := s.entries, db := s.db, input := inp, action := Action.reset, launched := [] }) ∧
    react s (Event.complete none) inp b =
      some { entries := s.entries, db := s.db, input := inp, action := Action.reset, launched := [] } := by
  refine ⟨?_, ?_, rfl⟩
  · intro h1 h2
    simp [react, h1, h2]
  · intro h1 h2
    cases hl : Recent.label s.home item with
    | ok l => simp [isOkE, hl] at h2
    | error e => simp [react, h1, hl]

/-- C5, witness: the replace branch at a concrete entry. -/
theorem c5_autocomplete_witness :
    c1State.entries[0]? = some (Recent.file urlProj none none) ∧
    Recent.label c1State.home (Recent.file urlProj none none) = Except.ok "/home/u/proj" ∧
    react c1State (Event.complete (some 0)) "abc" true =
      some { entries := c1State.entries, db := none, input := "/home/u/proj",
             action := Action.reset, launched := [] } :=
  ⟨rfl, rfl,
    (c5_autocomplete c1State 0 (Recent.file urlProj none none) "abc" "/home/u/proj" true).1 rfl rfl⟩

/-! ## Claim C9: UPDATE with a missing history row -/

/-- C9: when the table has no history row, the write path still reports
success while changing nothing (the SQL UPDATE matches zero rows), so a
delete event reports `Reload` with the store unchanged even though a
subsequent read still fails. -/
theorem c9_update_without_key (t : Table) (l : List Recent) (s : ModeState) (i : Nat)
    (inp : String) (b : Bool) (hk : tableLookup t vscdbHistoryKey = none) :
    storeRecentlyOpened (some t) l = Except.ok t ∧
    (s.db = some t → i < s.entries.length →
      react s (Event.deleteEntry i) inp b =
        some { entries := s.entries.eraseIdx i, db := some t, input := inp,
               action := Action.reload, launched := [] }) ∧
    isOkE (getHistoryEntries (some t) false) = false := by
  refine ⟨?_, ?_, ?_⟩
  · simp [storeRecentlyOpened, updateRow_of_nokey _ hk]
  · intro hdb hi
    simp [react, hi, storeRecentlyOpened, hdb, updateRow_of_nokey _ hk]
  · simp [getHistoryEntries, hk, isOkE]

/-- C9, witness: the theorem at a concrete keyless table. -/
theorem c9_update_without_key_witness :
    tableLookup tblOther vscdbHistoryKey = none ∧
    storeRecentlyOpened (some tblOther) [recA] = Except.ok tblOther ∧
    react { entries := [recA], flavorCmd := "code", db := some tblOther, home := none }
        (Event.deleteEntry 0) "" true =
      some { entries := [], db := some tblOther, input := "", action := Action.reload, launched := [] } := by
  have h := c9_update_without_key tblOther [recA]
    { entries := [recA], flavorCmd := "code", db := some tblOther, home := none } 0 "" true rfl
  exact ⟨rfl, h.1, h.2.1 rfl (by decide)⟩

/-! ## Claim C10: unchecked indexing -/

/-- C10: every index-taking operation is total and well-defined for
`i < len` (and reads or removes only the selected entry: the content and
match of a line depend only on that entry and the home directory, select
leaves the list unchanged, delete removes exactly index `i`), while for
`i ≥ len` each operation panics (`none`) instead of returning an error. -/
theorem c10_bounds (s sB : ModeState) (i : Nat) (inp : String) (b : Bool) (m : String → Bool) :
    (i < s.entries.length →
      (entryContent s i).isSome ∧ (matchesEntry s i m).isSome ∧
      (react s (Event.ok i) inp b).isSome ∧ (react s (Event.complete (some i)) inp b).isSome ∧
      (react s (Event.deleteEntry i) inp b).isSome) ∧
    (s.entries.length ≤ i →
      entryContent s i = none ∧ matchesEntry s i m = none ∧
      react s (Event.ok i) inp b = none ∧ react s (Event.complete (some i)) inp b = none ∧
      react s (Event.deleteEntry i) inp b = none) ∧
    (s.entries[i]? = sB.entries[i]? → s.home = sB.home →
      entryContent s i = entryContent sB i ∧ matchesEntry s i m = matchesEntry sB i m) ∧
    (∀ r, react s (Event.ok i) inp b = some r → r.entries = s.entries) ∧
    (∀ r, react s (Event.deleteEntry i) inp b = some r →
      r.entries = s.entries.eraseIdx i ∧ r.entries = s.entries.take i ++ s.entries.drop (i + 1)) := by
  refine ⟨?_, ?_, ?_, ?_, ?_⟩
  · intro hi
    obtain ⟨item, hitem⟩ : ∃ item, s.entries[i]? = some item :=
      ⟨s.entries[i], List.getElem?_eq_getElem hi⟩
    refine ⟨?_, ?_, ?_, ?_, ?_⟩
    · simp [entryContent, hitem]
    · simp [matchesEntry, hitem]
    · cases b <;> simp [react, hitem]
    · cases hl : Recent.label s.home item <;> simp [react, hitem, hl]
    · cases hdb : s.db <;> simp [react, hi, storeRecentlyOpened, hdb]
  · intro hi
    have hnone : s.entries[i]? = none := List.getElem?_eq_none hi
    refine ⟨?_, ?_, ?_, ?_, ?_⟩
    · simp [entryContent, hnone]
    · simp [matchesEntry, hnone]
    · simp [react, hnone]
    · simp [react, hnone]
    · simp [react, Nat.not_lt.mpr hi]
  · intro he hh
    constructor
    · simp only [entryContent, he, hh]
    · simp only [matchesEntry, he, hh]
  · intro r hr
    cases hitem : s.entries[i]? with
    | none => simp [react, hitem] at hr
    | some item =>
      cases b <;> simp [react, hitem] at hr <;> rw [← hr]
  · intro r hr
    by_cases hi : i < s.entries.length
    · cases hdb : storeRecentlyOpened s.db (s.entries.eraseIdx i) with
      | ok t =>
        simp [react, hi, hdb] at hr
        rw [← hr]
        exact ⟨rfl, by simp [List.eraseIdx_eq_take_drop_succ]⟩
      | error e =>
        simp [react, hi, hdb] at hr
        rw [← hr]
        exact ⟨rfl, by simp [List.eraseIdx_eq_take_drop_succ]⟩
    · simp [react, hi] at hr

/-- C10, witness: the in-bounds branch at a concrete state. -/
theorem c10_bounds_witness :
    0 < c1State.entries.length ∧
    ((entryContent c1State 0).isSome ∧ (matchesEntry c1State 0 (fun _ => true)).isSome ∧
      (react c1State (Event.ok 0) "" true).isSome ∧ (react c1State (Event.complete (some 0)) "" true).isSome ∧
      (react c1State (Event.deleteEntry 0) "" true).isSome) :=
  ⟨by decide, (c10_bounds c1State c1State 0 "" true (fun _ => true)).1 (by decide)⟩

/-! ## Claim C3: the delete event -/

/-- C3: deleting index `i` removes exactly that element (keeping the
order of the rest), writes exactly the remainder to the store (so the
remainder can be read back), and on a failed store write the in-memory
removal is not rolled back (the event then reports `Exit`). -/
theorem c3_delete (s : ModeState) (i : Nat) (inp : String) (b : Bool) (t : Table) (v : Json)
    (hi : i < s.entries.length) :
    (s.db = some t →
      react s (Event.deleteEntry i) inp b =
        some { entries := s.entries.eraseIdx i,
               db := some (updateRow t vscdbHistoryKey (encodeEntries (s.entries.eraseIdx i))),
               input := inp, action := Action.reload, launched := [] }) ∧
    (s.db = none →
      react s (Event.deleteEntry i) inp b =
        some { entries := s.entries.eraseIdx i, db := none, input := inp,
               action := Action.exit, launched := [] }) ∧
    (tableLookup t vscdbHistoryKey = some v → (∀ r ∈ s.entries.eraseIdx i, r.WFu) →
      getHistoryEntries (some (updateRow t vscdbHistoryKey (encodeEntries (s.entries.eraseIdx i)))) false =
        Except.ok (s.entries.eraseIdx i)) ∧
    s.entries.eraseIdx i = s.entries.take i ++ s.entries.drop (i + 1) ∧
    (∀ a bb c : Recent, List.eraseIdx [a, bb, c] 1 = [a, c]) := by
  refine ⟨?_, ?_, ?_, by simp [List.eraseIdx_eq_take_drop_succ], fun a bb c => rfl⟩
  · intro hdb
    simp [react, hi, storeRecentlyOpened, hdb]
  · intro hdb
    simp [react, hi, storeRecentlyOpened, hdb]
  · intro hkv hw
    simp [getHistoryEntries, tableLookup_updateRow_of_mem _ hkv, encodeEntries, Json.lookup,
      List.find?, filterMap_decode_encode _ hw, filter_true_id]

/-- C3, witness: the `[A, B, C]`, `on_delete(1)` scenario with a concrete
store: memory keeps `[A, C]`, the store gets `{entries: [A, C]}`, and a
subsequent read returns `[A, C]`. -/
theorem c3_delete_witness :
    1 < ([recA, recB, recC] : List Recent).length ∧
    react { entries := [recA, recB, recC], flavorCmd := "code", db := some tblOne, home := none }
        (Event.deleteEntry 1) "" true =
      some { entries := [recA, recC],
             db := some (updateRow tblOne vscdbHistoryKey (encodeEntries [recA, recC])),
             input := "", action := Action.reload, launched := [] } ∧
    getHistoryEntries (some (updateRow tblOne vscdbHistoryKey (encodeEntries [recA, recC]))) false =
      Except.ok [recA, recC] := by
  have h := c3_delete
    { entries := [recA, recB, recC], flavorCmd := "code", db := some tblOne, home := none }
    1 "" true tblOne Json.null (by decide)
  exact ⟨by decide, h.1 rfl, h.2.2.1 rfl (by decide)⟩

/-! ## Claim C2: the encode/decode round trip -/

/-- C2: writing a list of well-formed items and reading the store back
reproduces the same list (length, order, variants and fields), and the
optional fields are omitted from the JSON when absent rather than
emitted as null. -/
theorem c2_roundtrip (t : Table) (l : List Recent) (v : Json)
    (hw : ∀ r ∈ l, r.WFu) (hk : tableLookup t vscdbHistoryKey = some v) :
    storeRecentlyOpened (some t) l = Except.ok (updateRow t vscdbHistoryKey (encodeEntries l)) ∧
    getHistoryEntries (some (updateRow t vscdbHistoryKey (encodeEntries l))) false = Except.ok l ∧
    (∀ r ∈ l, (encodeRecent r).lookup "label" = Option.map Json.str r.storedLabel ∧
      (encodeRecent r).lookup "remoteAuthority" = Option.map Json.str r.remote) := by
  refine ⟨rfl, ?_, ?_⟩
  · simp [getHistoryEntries, tableLookup_updateRow_of_mem _ hk, encodeEntries, Json.lookup,
      List.find?, filterMap_decode_encode _ hw, filter_true_id]
  · intro r hr
    cases r with
    | workspace w lab ra =>
      cases lab <;> cases ra <;>
        simp [encodeRecent, optField, Json.lookup, List.find?, Recent.storedLabel, Recent.remote]
    | folder u lab ra =>
      cases lab <;> cases ra <;>
        simp [encodeRecent, optField, Json.lookup, List.find?, Recent.storedLabel, Recent.remote]
    | file u lab ra =>
      cases lab <;> cases ra <;>
        simp [encodeRecent, optField, Json.lookup, List.find?, Recent.storedLabel, Recent.remote]

/-- C2, witness: the round trip at a concrete three-element list covering
all three variants. -/
theorem c2_roundtrip_witness :
    (∀ r ∈ ([recA, recB, recC] : List Recent), r.WFu) ∧
    tableLookup tblOne vscdbHistoryKey = some Json.null ∧
    getHistoryEntries (some (updateRow tblOne vscdbHistoryKey (encodeEntries [recA, recB, recC]))) false =
      Except.ok [recA, recB, recC] :=
  ⟨by decide, rfl, (c2_roundtrip tblOne [recA, recB, recC] Json.null (by decide) rfl).2.1⟩

/-! ## String and path lemmas for claim C8 -/

theorem toList_mk (l : List Char) : (String.mk l).toList = l := rfl

theorem mk_toList (s : String) : String.mk s.toList = s := rfl

theorem toList_ne_nil {s : String} (h : s ≠ "") : s.toList ≠ [] := by
  intro hl
  exact h (by rw [← mk_toList s, hl])

theorem startsSlash_cons {ch : Char} (l : List Char) (h : ch ≠ '/') :
    startsSlash (ch :: l) = false := by
  simp [startsSlash, h]

theorem splitSlashAux_chunk (xs ys acc : List Char) (h : ∀ x ∈ xs, x ≠ '/') :
    splitSlashAux (xs ++ ys) acc = splitSlashAux ys (xs.reverse ++ acc) := by
  induction xs generalizing acc with
  | nil => simp
  | cons x xs' ih =>
    have hx : ¬(x = '/') := h x (by simp)
    rw [List.cons_append]
    show (if x = '/' then
        if acc = [] then splitSlashAux (xs' ++ ys) []
        else String.mk acc.reverse :: splitSlashAux (xs' ++ ys) []
      else splitSlashAux (xs' ++ ys) (x :: acc)) = _
    rw [if_neg hx, ih (x :: acc) (fun a ha => h a (by simp [ha]))]
    simp

theorem splitSlashAux_slash (ys acc : List Char) :
    splitSlashAux ('/' :: ys) acc =
      if acc = [] then splitSlashAux ys [] else String.mk acc.reverse :: splitSlashAux ys [] := by
  simp [splitSlashAux]

theorem splitSlash_join (comps : List String) (h : ∀ c ∈ comps, c ≠ "" ∧ '/' ∉ c.toList) :
    splitSlash (joinSlash comps) = comps := by
  induction comps with
  | nil => rfl
  | cons c rest ih =>
    obtain ⟨hc0, hcs⟩ := h c (by simp)
    have hxs : ∀ x ∈ c.toList, x ≠ '/' := fun x hx he => hcs (he ▸ hx)
    cases rest with
    | nil =>
      show splitSlashAux (joinSlash [c]) [] = [c]
      have hj : joinSlash [c] = c.toList := rfl
      have hchunk := splitSlashAux_chunk c.toList [] [] hxs
      rw [List.append_nil] at hchunk
      have hne : c.toList.reverse ≠ [] := fun hrev =>
        toList_ne_nil hc0 (List.reverse_eq_nil_iff.mp hrev)
      rw [hj, hchunk, List.append_nil]
      show (if c.toList.reverse = [] then [] else [String.mk c.toList.reverse.reverse]) = [c]
      rw [if_neg hne, List.reverse_reverse, mk_toList]
    | cons cB restB =>
      show splitSlashAux (joinSlash (c :: cB :: restB)) [] = c :: cB :: restB
      have hj : joinSlash (c :: cB :: restB) = c.toList ++ '/' :: joinSlash (cB :: restB) := rfl
      have hchunk := splitSlashAux_chunk c.toList ('/' :: joinSlash (cB :: restB)) [] hxs
      rw [List.append_nil] at hchunk
      have hne : c.toList.reverse ≠ [] := fun hrev =>
        toList_ne_nil hc0 (List.reverse_eq_nil_iff.mp hrev)
      rw [hj, hchunk, splitSlashAux_slash,
        if_neg hne, List.reverse_reverse, mk_toList]
      have ihB : splitSlashAux (joinSlash (cB :: restB)) [] = cB :: restB :=
        ih (fun d hd => h d (by simp [hd]))
      rw [ihB]

theorem stripComps_sound (pre : List String) :
    ∀ l rest, stripComps pre l = some rest → l = pre ++ rest := by
  induction pre with
  | nil =>
    intro l rest h
    simpa [stripComps] using h
  | cons p ps ih =>
    intro l rest h
    cases l with
    | nil => simp [stripComps] at h
    | cons c cs =>
      by_cases hpc : p = c
      · rw [stripComps, if_pos hpc] at h
        rw [← hpc, List.cons_append]
        exact congrArg _ (ih cs rest h)
      · rw [stripComps, if_neg hpc] at h
        exact absurd h (by simp)

theorem parse_toString (p : Path) (hp : p.WF) : Path.parse (Path.toString p) = p := by
  obtain ⟨abs, comps⟩ := p
  have hcomps : ∀ c ∈ comps, c ≠ "" ∧ '/' ∉ c.toList := hp
  cases abs with
  | true =>
    show Path.parse (String.mk (['/'] ++ joinSlash comps)) = Path.mk true comps
    simp only [Path.parse, toList_mk, List.singleton_append, Path.mk.injEq]
    constructor
    · rfl
    · show splitSlashAux ('/' :: joinSlash comps) [] = comps
      rw [splitSlashAux_slash, if_pos rfl]
      exact splitSlash_join comps hcomps
  | false =>
    show Path.parse (String.mk ([] ++ joinSlash comps)) = Path.mk false comps
    simp only [Path.parse, toList_mk, List.nil_append, Path.mk.injEq]
    refine ⟨?_, splitSlash_join comps hcomps⟩
    cases comps with
    | nil => rfl
    | cons c rest =>
      obtain ⟨hc0, hcs⟩ := hcomps c (by simp)
      cases hct : c.toList with
      | nil => exact absurd hct (toList_ne_nil hc0)
      | cons ch cl =>
        have hch : ch ≠ '/' := fun he => hcs (by rw [hct, he]; simp)
        cases rest with
        | nil =>
          have hj : joinSlash [c] = ch :: cl := by rw [← hct]; rfl
          rw [hj]
          exact startsSlash_cons cl hch
        | cons cB restB =>
          have hj : joinSlash (c :: cB :: restB) = ch :: (cl ++ '/' :: joinSlash (cB :: restB)) := by
            show c.toList ++ '/' :: joinSlash (cB :: restB) = _
            rw [hct]
            rfl
          rw [hj]
          exact startsSlash_cons _ hch

/-! ## Claim C8: tildify / untildify -/

/-- C8: `tildify` rewrites the home prefix to `~` and `untildify`
inverts it (`/home/u/proj` ↔ `~/proj` with home `/home/u`); paths not
under home come back from `tildify` unchanged, text whose first
component is not `~` comes back from `untildify` unchanged, and the
prefix matching is component-wise (`/home/user2/x` is untouched for
home `/home/u`). -/
theorem c8_tildify (h p sfx : Path) (s : String) :
    tildify (some (Path.parse "/home/u")) (Path.parse "/home/u/proj") = "~/proj" ∧
    untildify (some (Path.parse "/home/u")) "~/proj" = Path.parse "/home/u/proj" ∧
    (p.stripPref h = none → tildify (some h) p = p.toString) ∧
    ((Path.parse s).absolute = true ∨ (Path.parse s).comps.head? ≠ some "~" →
      untildify (some h) s = Path.parse s) ∧
    (p.WF → p.stripPref h = some sfx → untildify (some h) (tildify (some h) p) = p) ∧
    tildify (some (Path.parse "/home/u")) (Path.parse "/home/user2/x") = "/home/user2/x" := by
  refine ⟨by decide, by decide, ?_, ?_, ?_, by decide⟩
  · intro hn
    simp [tildify, hn]
  · intro hcond
    have hnone : (Path.parse s).stripPref { absolute := false, comps := ["~"] } = none := by
      rcases hcond with habs | hhead
      · rw [Path.stripPref, if_neg (by simp [habs])]
      · rw [Path.stripPref]
        by_cases habs : (Path.parse s).absolute = false
        · rw [if_pos (by simp [habs])]
          cases hc : (Path.parse s).comps with
          | nil => rfl
          | cons c cs =>
            rw [hc] at hhead
            have : ¬("~" = c) := fun he => hhead (by simp [← he])
            simp [stripComps, this]
        · rw [if_neg (by simpa using habs)]
    simp [untildify, hnone]
  · intro hwf hstrip
    have habs : p.absolute = h.absolute := by
      by_contra hne
      rw [Path.stripPref, if_neg hne] at hstrip
      exact absurd hstrip (by simp)
    rw [Path.stripPref, if_pos habs] at hstrip
    obtain ⟨rest, hrest, hsfx⟩ : ∃ rest, stripComps h.comps p.comps = some rest ∧
        sfx = { absolute := false, comps := rest } := by
      cases hsc : stripComps h.comps p.comps with
      | none => rw [hsc] at hstrip; exact absurd hstrip (by simp)
      | some r =>
        rw [hsc] at hstrip
        exact ⟨r, rfl, by simpa using hstrip.symm⟩
    have hpcomps : p.comps = h.comps ++ rest := stripComps_sound h.comps p.comps rest hrest
    have htil : tildify (some h) p = Path.toString { absolute := false, comps := "~" :: rest } := by
      simp [tildify, Path.stripPref, if_pos habs, hrest, hsfx]
    have hwfq : Path.WF { absolute := false, comps := "~" :: rest } := by
      intro c hc
      rcases List.mem_cons.mp hc with hc | hc
      · subst hc
        exact ⟨by decide, by decide⟩
      · exact hwf c (by rw [hpcomps]; exact List.mem_append_right _ hc)
    have hparse : Path.parse (tildify (some h) p) = { absolute := false, comps := "~" :: rest } := by
      rw [htil]
      exact parse_toString _ hwfq
    rw [untildify]
    rw [hparse]
    have hstrip2 : Path.stripPref { absolute := false, comps := "~" :: rest }
        { absolute := false, comps := ["~"] } = some { absolute := false, comps := rest } := by
      rw [Path.stripPref, if_pos rfl]
      simp [stripComps]
    rw [hstrip2]
    show h.join { absolute := false, comps := rest } = p
    rw [Path.join, if_neg (by simp)]
    obtain ⟨pabs, pcomps⟩ := p
    simp only [Path.mk.injEq]
    simp only at habs hpcomps
    exact ⟨habs.symm, hpcomps.symm⟩

/-- C8, witness: the general branches at concrete paths. -/
theorem c8_tildify_witness :
    (Path.parse "/a").stripPref (Path.parse "/home/x") = none ∧
    tildify (some (Path.parse "/home/x")) (Path.parse "/a") = (Path.parse "/a").toString ∧
    ((Path.parse "x/y").absolute = true ∨ (Path.parse "x/y").comps.head? ≠ some "~") ∧
    untildify (some (Path.parse "/home/x")) "x/y" = Path.parse "x/y" ∧
    (Path.parse "/home/u/proj").WF ∧
    (Path.parse "/home/u/proj").stripPref (Path.parse "/home/u") = some { absolute := false, comps := ["proj"] } ∧
    untildify (some (Path.parse "/home/u"))
        (tildify (some (Path.parse "/home/u")) (Path.parse "/home/u/proj")) = Path.parse "/home/u/proj" := by
  have hc := c8_tildify (Path.parse "/home/x") (Path.parse "/a")
    { absolute := false, comps := ["proj"] } "x/y"
  have hc2 := c8_tildify (Path.parse "/home/u") (Path.parse "/home/u/proj")
    { absolute := false, comps := ["proj"] } "x/y"
  exact ⟨by decide, hc.2.2.1 (by decide), Or.inr (by decide), hc.2.2.2.1 (Or.inr (by decide)),
    by decide, by decide, hc2.2.2.2.2.1 (by decide) (by decide)⟩





end RVM
